import Mathlib

/-!
Verification of the `dz_xml.py` configuration-language translator.

We shallowly embed the AST produced by `BuildAST`, the evaluator
(`eval_config` / `eval_value` / `eval_expr`) and the XML emitter
(`build_xml`) as Lean definitions, and prove the specification's claims
about them.

Numbers are modelled by `FP`: an exact rational together with the special
IEEE values `inf`, `neginf` and `nan`.  This mirrors Python's binary64
arithmetic on the inputs relevant here (small decimal literals and the
exact operations on them).  Python float division raises
`ZeroDivisionError` on a zero divisor — it does not produce IEEE
infinities there — so `fdiv` is fallible while the other operations are
total.  The model uses a single unsigned zero.
-/

/-- Model of a Python float: a finite exact rational, or one of the
special values `inf`, `-inf`, `nan`. -/
inductive FP where
  | finite (q : ℚ)
  | inf
  | neginf
  | nan
deriving DecidableEq, Repr

/-- The error kinds raised by the translator core: the `ValueError`s of
the source, distinguished here by their message, together with the
`ZeroDivisionError` Python raises on float division by zero. -/
inductive Err where
  | duplicateKey (k : String)
  | arityMin
  | arityOp (op : String)
  | unknownConstant (name : String)
  | nonNumericReference (name : String)
  | malformedExpression
  | zeroDivision
deriving DecidableEq, Repr

/-- Python `a < b` on floats: `nan` is incomparable to everything. -/
def flt : FP → FP → Bool
  | FP.nan, _ => false
  | _, FP.nan => false
  | FP.neginf, FP.neginf => false
  | FP.neginf, _ => true
  | _, FP.neginf => false
  | FP.inf, _ => false
  | FP.finite _, FP.inf => true
  | FP.finite a, FP.finite b => decide (a < b)

/-- Float addition with IEEE special-value propagation. -/
def fadd : FP → FP → FP
  | FP.nan, _ => FP.nan
  | _, FP.nan => FP.nan
  | FP.inf, FP.neginf => FP.nan
  | FP.neginf, FP.inf => FP.nan
  | FP.inf, _ => FP.inf
  | _, FP.inf => FP.inf
  | FP.neginf, _ => FP.neginf
  | _, FP.neginf => FP.neginf
  | FP.finite a, FP.finite b => FP.finite (a + b)

/-- Float subtraction with IEEE special-value propagation. -/
def fsub : FP → FP → FP
  | FP.nan, _ => FP.nan
  | _, FP.nan => FP.nan
  | FP.inf, FP.inf => FP.nan
  | FP.neginf, FP.neginf => FP.nan
  | FP.inf, _ => FP.inf
  | _, FP.inf => FP.neginf
  | FP.neginf, _ => FP.neginf
  | _, FP.neginf => FP.inf
  | FP.finite a, FP.finite b => FP.finite (a - b)

/-- Float multiplication with IEEE special-value propagation
(`inf * 0 = nan`). -/
def fmul : FP → FP → FP
  | FP.nan, _ => FP.nan
  | _, FP.nan => FP.nan
  | FP.inf, FP.inf => FP.inf
  | FP.inf, FP.neginf => FP.neginf
  | FP.neginf, FP.inf => FP.neginf
  | FP.neginf, FP.neginf => FP.inf
  | FP.inf, FP.finite b =>
      if b = 0 then FP.nan else if b < 0 then FP.neginf else FP.inf
  | FP.finite a, FP.inf =>
      if a = 0 then FP.nan else if a < 0 then FP.neginf else FP.inf
  | FP.neginf, FP.finite b =>
      if b = 0 then FP.nan else if b < 0 then FP.inf else FP.neginf
  | FP.finite a, FP.neginf =>
      if a = 0 then FP.nan else if a < 0 then FP.inf else FP.neginf
  | FP.finite a, FP.finite b => FP.finite (a * b)

/-- Python float division: a zero divisor raises `ZeroDivisionError`
whatever the numerator; otherwise IEEE special values propagate. -/
def fdiv : FP → FP → Except Err FP
  | x, FP.finite b =>
      if b = 0 then Except.error Err.zeroDivision
      else
        match x with
        | FP.nan => Except.ok FP.nan
        | FP.inf => Except.ok (if b < 0 then FP.neginf else FP.inf)
        | FP.neginf => Except.ok (if b < 0 then FP.inf else FP.neginf)
        | FP.finite a => Except.ok (FP.finite (a / b))
  | FP.nan, _ => Except.ok FP.nan
  | _, FP.nan => Except.ok FP.nan
  | FP.inf, FP.inf => Except.ok FP.nan
  | FP.inf, FP.neginf => Except.ok FP.nan
  | FP.neginf, FP.inf => Except.ok FP.nan
  | FP.neginf, FP.neginf => Except.ok FP.nan
  | FP.finite _, FP.inf => Except.ok (FP.finite 0)
  | FP.finite _, FP.neginf => Except.ok (FP.finite 0)

/-- Python `min(a, b)`: returns `b` when `b < a`, else `a`. -/
def fmin (a b : FP) : FP := if flt b a then b else a

/-- One token of a flattened postfix expression, as produced by
`BuildAST`: either a float (from `expr_number`) or a string (an operator
symbol from `expr_plus`/… or a bare `NAME` from `expr_name`). -/
inductive ExprTok where
  | num (q : ℚ)
  | str (s : String)
deriving DecidableEq, Repr

/-- An AST value, as produced by `BuildAST`: a float literal, a
dictionary (ordered entries), or a flattened expression token list. -/
inductive AstValue where
  | number (q : ℚ)
  | dict (entries : List (String × AstValue))
  | expr (tokens : List ExprTok)

/-- A resolved value: a float or an ordered dictionary of resolved
values. -/
inductive RVal where
  | num (v : FP)
  | dict (entries : List (String × RVal))

/-- Lookup in a Python-dict-like ordered association list. -/
def lookupAssoc {α : Type} (l : List (String × α)) (k : String) : Option α :=
  match l.find? (fun p => p.1 = k) with
  | some p => some p.2
  | none => none

/-- Python dict assignment `d[k] = v`: overwrite in place if the key is
present (keeping its position), otherwise append at the end. -/
def updateAssoc {α : Type} (l : List (String × α)) (k : String) (v : α) :
    List (String × α) :=
  if l.any (fun p => p.1 = k) then
    l.map (fun p => if p.1 = k then (k, v) else p)
  else l ++ [(k, v)]

/-- Python `k in d` on an ordered association list. -/
def containsKey {α : Type} (l : List (String × α)) (k : String) : Bool :=
  l.any (fun p => p.1 = k)

/-- The environment of previously resolved constants. -/
abbrev Env : Type := List (String × RVal)

/-- One step of the expression stack machine (`eval_expr`'s loop body):
operators and the function `min` are recognised before any environment
lookup; other strings are references resolved in `env`. -/
def evalTok (env : Env) (stack : List FP) : ExprTok → Except Err (List FP)
  | ExprTok.num q => Except.ok (FP.finite q :: stack)
  | ExprTok.str s =>
      if s = "+" ∨ s = "-" ∨ s = "*" ∨ s = "/" ∨ s = "min" then
        if s = "min" then
          match stack with
          | b :: a :: rest => Except.ok (fmin a b :: rest)
          | _ => Except.error Err.arityMin
        else
          match stack with
          | b :: a :: rest =>
              if s = "+" then Except.ok (fadd a b :: rest)
              else if s = "-" then Except.ok (fsub a b :: rest)
              else if s = "*" then Except.ok (fmul a b :: rest)
              else
                match fdiv a b with
                | Except.ok v => Except.ok (v :: rest)
                | Except.error e => Except.error e
          | _ => Except.error (Err.arityOp s)
      else
        match lookupAssoc env s with
        | none => Except.error (Err.unknownConstant s)
        | some (RVal.dict _) => Except.error (Err.nonNumericReference s)
        | some (RVal.num v) => Except.ok (v :: stack)

/-- `eval_expr`: run the stack machine over the token list starting from
an empty stack; exactly one value must remain. -/
def eval_expr (env : Env) (tokens : List ExprTok) : Except Err FP := do
  let stack ← tokens.foldlM (evalTok env) []
  match stack with
  | [v] => Except.ok v
  | _ => Except.error Err.malformedExpression

mutual

/-- `eval_value`: resolve an AST value against the environment. -/
def eval_value (env : Env) : AstValue → Except Err RVal
  | AstValue.number q => Except.ok (RVal.num (FP.finite q))
  | AstValue.dict entries => do
      let d ← eval_dict_entries env entries []
      Except.ok (RVal.dict d)
  | AstValue.expr tokens => do
      let v ← eval_expr env tokens
      Except.ok (RVal.num v)

/-- The dictionary loop of `eval_value`: `d[k] = eval_value(v)` for each
entry in order, every entry evaluated against the same outer `env`. -/
def eval_dict_entries (env : Env) :
    List (String × AstValue) → List (String × RVal) →
    Except Err (List (String × RVal))
  | [], acc => Except.ok acc
  | (k, v) :: rest, acc => do
      let rv ← eval_value env v
      eval_dict_entries env rest (updateAssoc acc k rv)

end

/-- The declaration loop of `eval_config`: for each `(name, value)` in
source order, resolve the value against `env`, then write it into both
`env` and `result` (Python dict assignment). -/
def eval_config_go : List (String × AstValue) → Env → Env → Except Err Env
  | [], _, result => Except.ok result
  | (name, vast) :: rest, env, result => do
      let value ← eval_value env vast
      eval_config_go rest (updateAssoc env name value)
        (updateAssoc result name value)

/-- `eval_config`: evaluate all declarations starting from empty
environment and result. -/
def eval_config (ast : List (String × AstValue)) : Except Err Env :=
  eval_config_go ast [] []

/-- `BuildAST.dictionary`: fold the entries of one dictionary literal
into an ordered mapping, raising a duplicate-key error the moment a key
reappears. -/
def buildDictionaryGo :
    List (String × AstValue) → List (String × AstValue) →
    Except Err (List (String × AstValue))
  | [], acc => Except.ok acc
  | (k, v) :: rest, acc =>
      if containsKey acc k then Except.error (Err.duplicateKey k)
      else buildDictionaryGo rest (acc ++ [(k, v)])

/-- `BuildAST.dictionary` on the entry list of a dictionary literal. -/
def buildDictionary (items : List (String × AstValue)) :
    Except Err (List (String × AstValue)) :=
  buildDictionaryGo items []

/-- Pad a digit string with leading zeros to length `k`. -/
def padFrac (s : String) (k : Nat) : String :=
  String.mk (List.replicate (k - s.length) '0') ++ s

/-- Decimal rendering of an exact rational, as Python's `str` prints the
corresponding float when it is exactly a short decimal: integers get a
trailing `.0`, other decimal fractions print their shortest digits. -/
def ratToDecimalString (q : ℚ) : String :=
  let sign := if q < 0 then "-" else ""
  let a : ℚ := |q|
  match (List.range 18).find? (fun k => (a * (10 : ℚ) ^ k).den = 1) with
  | some k =>
      let m : ℕ := (a * (10 : ℚ) ^ k).num.toNat
      if k = 0 then sign ++ toString m ++ ".0"
      else sign ++ toString (m / 10 ^ k) ++ "." ++
        padFrac (toString (m % 10 ^ k)) k
  | none => sign ++ toString a.num ++ "/" ++ toString a.den

/-- Python `str` on the float model. -/
def pyFloatStr : FP → String
  | FP.inf => "inf"
  | FP.neginf => "-inf"
  | FP.nan => "nan"
  | FP.finite q => ratToDecimalString q

/-- An XML element: tag, attributes, optional text, children — the part
of `xml.etree.ElementTree` the emitter uses. -/
inductive Xml where
  | elem (tag : String) (attrs : List (String × String))
      (text : Option String) (children : List Xml)

mutual

/-- `add_value` from `build_xml`: the subtree appended to the parent for
one named value. -/
def add_value (name : String) : RVal → Xml
  | RVal.dict entries =>
      Xml.elem "dict" [("name", name)] none (add_children entries)
  | RVal.num v =>
      Xml.elem "number" [("name", name)] (some (pyFloatStr v)) []

/-- The loop in `add_value` over a resolved dictionary's entries. -/
def add_children : List (String × RVal) → List Xml
  | [] => []
  | (k, v) :: rest => add_value k v :: add_children rest

end

/-- `build_xml`: root `config` element with one child per entry of the
resolved configuration, in order. -/
def build_xml (data : Env) : Xml :=
  Xml.elem "config" [] none (add_children data)

/-- The emitter as the specification words it: a `Number` entry becomes
a `number` element with a `name` attribute and the float's decimal text
as content; a `Dict` entry becomes a `dict` element with a `name`
attribute containing the recursively emitted children of its ordered
mapping, in that same order. -/
def emitSpecValue (name : String) : RVal → Xml
  | RVal.num f => Xml.elem "number" [("name", name)] (some (pyFloatStr f)) []
  | RVal.dict m =>
      Xml.elem "dict" [("name", name)] none
        (m.attach.map (fun p => emitSpecValue p.1.1 p.1.2))
termination_by v => sizeOf v
decreasing_by
  have h := List.sizeOf_lt_of_mem p.2
  obtain ⟨⟨k, v⟩, hp⟩ := p
  simp at h ⊢
  omega

/-- The whole document as the specification words it: a tree rooted at
`config` whose children are the emitted entries in insertion order. -/
def emitSpec (cfg : Env) : Xml :=
  Xml.elem "config" [] none (cfg.map (fun p => emitSpecValue p.1 p.2))

/-- The dictionary evaluation as the specification words it: recursively
evaluate each entry's value against the *same* environment, producing
the ordered list of resolved entries. -/
def evalEntriesSameEnv (env : Env) :
    List (String × AstValue) → Except Err (List (String × RVal))
  | [] => Except.ok []
  | (k, v) :: rest => do
      let rv ← eval_value env v
      let tail ← evalEntriesSameEnv env rest
      Except.ok ((k, rv) :: tail)

@[simp] theorem exceptBind_ok {ε α β : Type} (a : α) (f : α → Except ε β) :
    (Except.ok a >>= f : Except ε β) = f a := rfl

@[simp] theorem exceptBind_error {ε α β : Type} (e : ε) (f : α → Except ε β) :
    (Except.error e >>= f : Except ε β) = Except.error e := rfl

theorem containsKey_eq_false {α : Type} (l : List (String × α)) (k : String)
    (h : k ∉ l.map Prod.fst) : containsKey l k = false := by
  simp only [containsKey, List.any_eq_false, decide_eq_true_eq]
  intro p hp hpk
  exact h (List.mem_map.mpr ⟨p, hp, hpk⟩)

theorem updateAssoc_fresh {α : Type} (l : List (String × α)) (k : String)
    (v : α) (h : k ∉ l.map Prod.fst) : updateAssoc l k v = l ++ [(k, v)] := by
  have hc : l.any (fun p => p.1 = k) = false := containsKey_eq_false l k h
  simp only [updateAssoc, hc, Bool.false_eq_true, if_false]

theorem containsKey_eq_true_iff {α : Type} (l : List (String × α)) (k : String) :
    containsKey l k = true ↔ k ∈ l.map Prod.fst := by
  simp only [containsKey, List.any_eq_true, decide_eq_true_eq, List.mem_map]

theorem lookupAssoc_cons {α : Type} (k k' : String) (v : α)
    (l : List (String × α)) :
    lookupAssoc ((k, v) :: l) k' =
      if k = k' then some v else lookupAssoc l k' := by
  by_cases h : k = k'
  · simp [lookupAssoc, List.find?, h]
  · simp [lookupAssoc, List.find?, h]

theorem lookupAssoc_mem_nodup {α : Type} :
    ∀ (l : List (String × α)), (l.map Prod.fst).Nodup →
      ∀ p ∈ l, lookupAssoc l p.1 = some p.2
  | [], _, p, hp => absurd hp (List.not_mem_nil p)
  | (k, v) :: rest, h, p, hp => by
      rw [List.map_cons, List.nodup_cons] at h
      rcases List.mem_cons.mp hp with rfl | hmem
      · rw [lookupAssoc_cons, if_pos rfl]
      · have hk : k ≠ p.1 := by
          intro he
          exact h.1 (he ▸ List.mem_map.mpr ⟨p, hmem, rfl⟩)
        rw [lookupAssoc_cons, if_neg hk]
        exact lookupAssoc_mem_nodup rest h.2 p hmem

theorem eval_config_go_numbers :
    ∀ (ast : List (String × ℚ)) (env acc : Env),
      (acc.map Prod.fst ++ ast.map Prod.fst).Nodup →
      eval_config_go (ast.map (fun p => (p.1, AstValue.number p.2))) env acc
        = Except.ok (acc ++ ast.map (fun p => (p.1, RVal.num (FP.finite p.2))))
  | [], _, acc, _ => by simp [eval_config_go]
  | (k, q) :: rest, env, acc, h => by
      have hk : k ∉ acc.map Prod.fst := fun hmem =>
        (List.disjoint_of_nodup_append h) hmem (by simp)
      have hperm :
          (acc ++ [(k, RVal.num (FP.finite q))]).map Prod.fst ++
              (rest.map (fun p : String × ℚ => (p.1, AstValue.number p.2))).map
                Prod.fst
            = acc.map Prod.fst ++
                (((k, q) :: rest).map
                  (fun p : String × ℚ => (p.1, AstValue.number p.2))).map
                  Prod.fst := by
        simp
      have h' := hperm ▸ (by simpa using h :
        (acc.map Prod.fst ++
          (((k, q) :: rest).map
            (fun p : String × ℚ => (p.1, AstValue.number p.2))).map
            Prod.fst).Nodup)
      simp only [List.map_cons, eval_config_go, eval_value, exceptBind_ok]
      rw [updateAssoc_fresh acc k _ hk,
        eval_config_go_numbers rest _ _ (by simpa using h')]
      simp

theorem eval_config_go_append :
    ∀ (l1 l2 : List (String × AstValue)) (e : Env),
      eval_config_go (l1 ++ l2) e e
        = eval_config_go l1 e e >>= fun r => eval_config_go l2 r r
  | [], l2, e => by simp [eval_config_go]
  | (n, v) :: l1, l2, e => by
      simp only [List.cons_append, eval_config_go]
      cases hv : eval_value e v with
      | error err => simp
      | ok val =>
          simp only [exceptBind_ok]
          exact eval_config_go_append l1 l2 (updateAssoc e n val)

theorem eval_dict_entries_eq_sameEnv :
    ∀ (env : Env) (l : List (String × AstValue)) (acc : List (String × RVal)),
      eval_dict_entries env l acc
        = evalEntriesSameEnv env l >>= fun rl =>
            Except.ok (rl.foldl (fun a p => updateAssoc a p.1 p.2) acc)
  | _, [], acc => by simp [eval_dict_entries, evalEntriesSameEnv]
  | env, (k, v) :: rest, acc => by
      simp only [eval_dict_entries, evalEntriesSameEnv]
      cases hv : eval_value env v with
      | error e => simp
      | ok rv =>
          simp only [exceptBind_ok]
          rw [eval_dict_entries_eq_sameEnv env rest (updateAssoc acc k rv)]
          cases hr : evalEntriesSameEnv env rest with
          | error e => simp
          | ok tail => simp

theorem buildDictionaryGo_nodup :
    ∀ (items acc : List (String × AstValue)),
      (acc.map Prod.fst ++ items.map Prod.fst).Nodup →
      buildDictionaryGo items acc = Except.ok (acc ++ items)
  | [], acc, _ => by simp [buildDictionaryGo]
  | (k, v) :: rest, acc, h => by
      have hk : k ∉ acc.map Prod.fst := fun hmem =>
        (List.disjoint_of_nodup_append h) hmem (by simp)
      simp only [buildDictionaryGo, containsKey_eq_false acc k hk,
        Bool.false_eq_true, if_false]
      have h' : ((acc ++ [(k, v)]).map Prod.fst ++ rest.map Prod.fst).Nodup := by
        simpa using h
      rw [buildDictionaryGo_nodup rest (acc ++ [(k, v)]) h']
      simp

theorem buildDictionaryGo_dup :
    ∀ (items acc : List (String × AstValue)),
      (acc.map Prod.fst).Nodup →
      ¬ (acc.map Prod.fst ++ items.map Prod.fst).Nodup →
      ∃ k, buildDictionaryGo items acc = Except.error (Err.duplicateKey k)
  | [], acc, hacc, h => absurd (by simpa using hacc) h
  | (k, v) :: rest, acc, hacc, h => by
      by_cases hk : containsKey acc k = true
      · exact ⟨k, by simp only [buildDictionaryGo, hk, if_true]⟩
      · rw [Bool.not_eq_true] at hk
        have hkm : k ∉ acc.map Prod.fst := fun hmem =>
          absurd ((containsKey_eq_true_iff acc k).mpr hmem)
            (by simp [hk])
        have hacc' : ((acc ++ [(k, v)]).map Prod.fst).Nodup := by
          simp only [List.map_append, List.map_cons, List.map_nil]
          exact List.Nodup.append hacc (List.nodup_singleton k)
            (fun a ha hb => by
              rcases List.mem_singleton.mp hb with rfl
              exact hkm ha)
        have h' : ¬ ((acc ++ [(k, v)]).map Prod.fst ++
            rest.map Prod.fst).Nodup := by
          intro hcon
          exact h (by simpa using hcon)
        simp only [buildDictionaryGo, hk, Bool.false_eq_true, if_false]
        exact buildDictionaryGo_dup rest (acc ++ [(k, v)]) hacc' h'

mutual

theorem add_value_eq_spec : ∀ (n : String) (v : RVal),
    add_value n v = emitSpecValue n v
  | _, RVal.num _ => by rw [add_value, emitSpecValue]
  | n, RVal.dict m => by
      rw [add_value, emitSpecValue, add_children_eq_spec m]
      have hm : m.attach.map (fun p => emitSpecValue p.1.1 p.1.2)
          = m.map (fun p => emitSpecValue p.1 p.2) :=
        List.attach_map_val m (fun p => emitSpecValue p.1 p.2)
      rw [hm]

theorem add_children_eq_spec : ∀ (l : List (String × RVal)),
    add_children l = l.map (fun p => emitSpecValue p.1 p.2)
  | [] => by rw [add_children, List.map_nil]
  | (k, v) :: rest => by
      rw [add_children, add_value_eq_spec k v, add_children_eq_spec rest,
        List.map_cons]

end

/-- Claim C1 counterexample: evaluating `$ 1 0 / $` does not push an
infinity or NaN — Python float division raises `ZeroDivisionError` on a
zero divisor, so the evaluation fails with that error. -/
theorem div_by_zero_counterexample :
    eval_expr [] [ExprTok.num 1, ExprTok.num 0, ExprTok.str "/"]
      = Except.error Err.zeroDivision := by
  norm_num +decide [eval_expr, evalTok, List.foldlM, fdiv]

/-- Claim C1 (amended: division by a zero divisor is reported as an
error, not evaluated to an IEEE special value): whenever the division
operator is applied to a divisor equal to zero, the step fails with the
division-by-zero error — whatever the numerator — and evaluation
aborts. -/
theorem div_by_zero_raises (env : Env) (a : FP) (rest : List FP) :
    evalTok env (FP.finite 0 :: a :: rest) (ExprTok.str "/")
      = Except.error Err.zeroDivision := by
  cases a <;> simp +decide [evalTok, fdiv]

/-- Claim C2 counterexample: the source `a: 1; a: 2;` is valid, has two
const_decl statements, all numeric literals, yet the resolved
configuration has a single entry (the later declaration overwrites the
earlier binding). -/
theorem numeric_decls_count_counterexample :
    eval_config [("a", AstValue.number 1), ("a", AstValue.number 2)]
      = Except.ok [("a", RVal.num (FP.finite 2))] ∧
    [("a", AstValue.number 1), ("a", AstValue.number 2)].length = 2 ∧
    [("a", RVal.num (FP.finite 2))].length ≠ 2 := by
  refine ⟨?_, rfl, by decide⟩
  norm_num +decide [eval_config, eval_config_go, eval_value, updateAssoc,
    List.any]

/-- Claim C2 (amended: the declared names must be pairwise distinct,
since the code lets a re-declared top-level name overwrite the earlier
binding): for every source whose declarations are numeric literals with
pairwise distinct names, evaluation succeeds, the resolved configuration
has exactly as many entries as there are const_decl statements, and the
value bound to each name is the float value of its literal. -/
theorem numeric_decls_distinct_resolve (ast : List (String × ℚ))
    (h : (ast.map Prod.fst).Nodup) :
    eval_config (ast.map (fun p => (p.1, AstValue.number p.2)))
      = Except.ok (ast.map (fun p => (p.1, RVal.num (FP.finite p.2)))) ∧
    (ast.map (fun p => (p.1, RVal.num (FP.finite p.2)))).length
      = (ast.map (fun p => (p.1, AstValue.number p.2))).length ∧
    ∀ p ∈ ast,
      lookupAssoc (ast.map (fun p => (p.1, RVal.num (FP.finite p.2)))) p.1
        = some (RVal.num (FP.finite p.2)) := by
  refine ⟨?_, by simp, ?_⟩
  · have hmain := eval_config_go_numbers ast [] [] (by simpa using h)
    simpa [eval_config] using hmain
  · intro p hp
    have hn : ((ast.map (fun p => (p.1, RVal.num (FP.finite p.2)))).map
        Prod.fst).Nodup := by
      simpa [List.map_map, Function.comp] using h
    have hmem : (p.1, RVal.num (FP.finite p.2))
        ∈ ast.map (fun p => (p.1, RVal.num (FP.finite p.2))) :=
      List.mem_map.mpr ⟨p, hp, rfl⟩
    simpa using lookupAssoc_mem_nodup _ hn _ hmem

/-- Witness for the amended claim C2 at the source `a: 1; b: 2;`. -/
theorem numeric_decls_distinct_resolve_witness :
    eval_config [("a", AstValue.number 1), ("b", AstValue.number 2)]
      = Except.ok [("a", RVal.num (FP.finite 1)),
          ("b", RVal.num (FP.finite 2))] :=
  (numeric_decls_distinct_resolve [("a", 1), ("b", 2)] (by decide)).1

/-- Claim C3: expression evaluation is a strict left-to-right stack
machine — each operator pops `b` then `a` and pushes `a op b`, fails
with the arity error when fewer than two operands are on the stack, and
after all tokens exactly one value must remain or evaluation fails with
the malformed-expression error; consequently `$ 10 2 3 - - $`
evaluates to `11.0`. -/
theorem stack_machine_left_to_right :
    (∀ (env : Env) (a b : FP) (rest : List FP),
       evalTok env (b :: a :: rest) (ExprTok.str "+")
           = Except.ok (fadd a b :: rest) ∧
       evalTok env (b :: a :: rest) (ExprTok.str "-")
           = Except.ok (fsub a b :: rest) ∧
       evalTok env (b :: a :: rest) (ExprTok.str "*")
           = Except.ok (fmul a b :: rest) ∧
       evalTok env (b :: a :: rest) (ExprTok.str "/")
           = (match fdiv a b with
              | Except.ok v => Except.ok (v :: rest)
              | Except.error e => Except.error e)) ∧
    (∀ (env : Env) (op : String) (stack : List FP),
       (op = "+" ∨ op = "-" ∨ op = "*" ∨ op = "/") → stack.length < 2 →
       evalTok env stack (ExprTok.str op) = Except.error (Err.arityOp op)) ∧
    (∀ (env : Env) (tokens : List ExprTok) (stack : List FP),
       tokens.foldlM (evalTok env) [] = Except.ok stack →
       (∀ v, stack = [v] → eval_expr env tokens = Except.ok v) ∧
       (stack.length ≠ 1 →
         eval_expr env tokens = Except.error Err.malformedExpression)) ∧
    eval_expr [] [ExprTok.num 10, ExprTok.num 2, ExprTok.num 3,
      ExprTok.str "-", ExprTok.str "-"] = Except.ok (FP.finite 11) := by
  refine ⟨?_, ?_, ?_, ?_⟩
  · intro env a b rest
    exact ⟨by simp +decide [evalTok], by simp +decide [evalTok],
      by simp +decide [evalTok],
      by cases hd : fdiv a b <;> simp +decide [evalTok, hd]⟩
  · intro env op stack hop hlen
    match stack with
    | [] => rcases hop with rfl | rfl | rfl | rfl <;> simp +decide [evalTok]
    | [x] => rcases hop with rfl | rfl | rfl | rfl <;> simp +decide [evalTok]
    | a :: b :: rest =>
        simp only [List.length_cons] at hlen
        omega
  · intro env tokens stack hfold
    constructor
    · rintro v rfl
      simp [eval_expr, hfold]
    · intro hlen
      match stack, hlen with
      | [], _ => simp [eval_expr, hfold]
      | [v], h => exact absurd rfl h
      | a :: b :: rest, _ => simp [eval_expr, hfold]
  · norm_num +decide [eval_expr, evalTok, List.foldlM, fsub]

/-- Witness for claim C3: the arity error on an empty stack and the
malformed-expression error on `$ 1 2 $`, both obtained from the claim's
theorem at concrete inputs. -/
theorem stack_machine_left_to_right_witness :
    evalTok [] [] (ExprTok.str "+") = Except.error (Err.arityOp "+") ∧
    eval_expr [] [ExprTok.num 1, ExprTok.num 2]
      = Except.error Err.malformedExpression :=
  ⟨stack_machine_left_to_right.2.1 [] "+" [] (Or.inl rfl) (by decide),
   (stack_machine_left_to_right.2.2.1 [] [ExprTok.num 1, ExprTok.num 2]
       [FP.finite 2, FP.finite 1] rfl).2 (by decide)⟩

/-- Claim C4: AST construction fails with the duplicate-key error
exactly when a key reappears within a single dictionary literal, while
re-declaring a top-level constant name is not rejected — the later
declaration silently overwrites the earlier binding. -/
theorem duplicate_keys_dict_vs_toplevel :
    (∀ (items : List (String × AstValue)),
       (∃ k, buildDictionary items = Except.error (Err.duplicateKey k))
         ↔ ¬ (items.map Prod.fst).Nodup) ∧
    buildDictionary [("k", AstValue.number 1), ("k", AstValue.number 2)]
      = Except.error (Err.duplicateKey "k") ∧
    eval_config [("a", AstValue.number 1), ("a", AstValue.number 2)]
      = Except.ok [("a", RVal.num (FP.finite 2))] := by
  refine ⟨?_, ?_, ?_⟩
  · intro items
    constructor
    · rintro ⟨k, hk⟩ hnodup
      have hok := buildDictionaryGo_nodup items [] (by simpa using hnodup)
      rw [buildDictionary, hok] at hk
      exact Except.noConfusion hk
    · intro hnodup
      have hdup := buildDictionaryGo_dup items [] (by simp)
        (by simpa using hnodup)
      simpa [buildDictionary] using hdup
  · norm_num +decide [buildDictionary, buildDictionaryGo, containsKey,
      List.any]
  · norm_num +decide [eval_config, eval_config_go, eval_value, updateAssoc,
      List.any]

/-- Witness for claim C4: the dictionary literal
`begin k := 1; k := 2; end` has a repeated key, so AST construction
fails with the duplicate-key error. -/
theorem duplicate_keys_dict_vs_toplevel_witness :
    ∃ k, buildDictionary [("k", AstValue.number 1), ("k", AstValue.number 2)]
      = Except.error (Err.duplicateKey k) :=
  (duplicate_keys_dict_vs_toplevel.1
      [("k", AstValue.number 1), ("k", AstValue.number 2)]).mpr (by decide)

/-- Claim C5: a reference token in an expression fails with the
unknown-constant error when the name is absent from the environment,
fails with the non-numeric-reference error when it is bound to a
dictionary, and otherwise pushes the bound numeric value; the sources
`y: $ z 1 + $;` and `d: begin a := 1; end; e: $ d 1 + $;` fail
accordingly. -/
theorem reference_token_resolution :
    (∀ (env : Env) (stack : List FP) (name : String),
       name ≠ "+" → name ≠ "-" → name ≠ "*" → name ≠ "/" → name ≠ "min" →
       (lookupAssoc env name = none →
          evalTok env stack (ExprTok.str name)
            = Except.error (Err.unknownConstant name)) ∧
       (∀ d, lookupAssoc env name = some (RVal.dict d) →
          evalTok env stack (ExprTok.str name)
            = Except.error (Err.nonNumericReference name)) ∧
       (∀ v, lookupAssoc env name = some (RVal.num v) →
          evalTok env stack (ExprTok.str name) = Except.ok (v :: stack))) ∧
    eval_config [("y", AstValue.expr [ExprTok.str "z", ExprTok.num 1,
        ExprTok.str "+"])]
      = Except.error (Err.unknownConstant "z") ∧
    eval_config [("d", AstValue.dict [("a", AstValue.number 1)]),
        ("e", AstValue.expr [ExprTok.str "d", ExprTok.num 1,
          ExprTok.str "+"])]
      = Except.error (Err.nonNumericReference "d") := by
  refine ⟨?_, ?_, ?_⟩
  · intro env stack name h1 h2 h3 h4 h5
    refine ⟨fun hl => ?_, fun d hl => ?_, fun v hl => ?_⟩ <;>
      simp [evalTok, h1, h2, h3, h4, h5, hl]
  · norm_num +decide [eval_config, eval_config_go, eval_value, eval_expr,
      evalTok, List.foldlM, lookupAssoc, List.find?, updateAssoc, List.any]
  · norm_num +decide [eval_config, eval_config_go, eval_value,
      eval_dict_entries, eval_expr, evalTok, List.foldlM, lookupAssoc,
      List.find?, updateAssoc, List.any]

/-- Witness for claim C5: the undeclared name `z` on an empty
environment fails with the unknown-constant error. -/
theorem reference_token_resolution_witness :
    evalTok [] [] (ExprTok.str "z") = Except.error (Err.unknownConstant "z") :=
  ((reference_token_resolution.1 [] [] "z" (by decide) (by decide)
      (by decide) (by decide) (by decide)).1) rfl

/-- Claim C6: the identifier `min` inside an expression is evaluated as
a binary function — it pops `b` then `a` and pushes `min(a, b)`, failing
with the arity error when fewer than two operands are on the stack — so
`x: $ 3 4 min $;` resolves `x` to `3.0`. -/
theorem min_is_binary_function :
    (∀ (env : Env) (a b : FP) (rest : List FP),
       evalTok env (b :: a :: rest) (ExprTok.str "min")
         = Except.ok (fmin a b :: rest)) ∧
    (∀ (env : Env) (stack : List FP), stack.length < 2 →
       evalTok env stack (ExprTok.str "min") = Except.error Err.arityMin) ∧
    eval_config [("x", AstValue.expr [ExprTok.num 3, ExprTok.num 4,
        ExprTok.str "min"])]
      = Except.ok [("x", RVal.num (FP.finite 3))] := by
  refine ⟨?_, ?_, ?_⟩
  · intro env a b rest
    simp +decide [evalTok]
  · intro env stack hlen
    match stack with
    | [] => simp +decide [evalTok]
    | [x] => simp +decide [evalTok]
    | a :: b :: rest =>
        simp only [List.length_cons] at hlen
        omega
  · have h43 : ¬ ((4 : ℚ) < 3) := by norm_num
    norm_num +decide [eval_config, eval_config_go, eval_value, eval_expr,
      evalTok, List.foldlM, updateAssoc, fmin, flt, h43, List.any]

/-- Witness for claim C6: `min` on an empty stack fails with the arity
error. -/
theorem min_is_binary_function_witness :
    evalTok [] [] (ExprTok.str "min") = Except.error Err.arityMin :=
  min_is_binary_function.2.1 [] [] (by decide)

/-- Claim C7: declarations are evaluated in source order against an
environment holding exactly the previously resolved declarations — the
evaluation of a source split as `ast1 ++ ast2` first resolves `ast1`
from the empty environment and then resolves `ast2` against exactly that
result — and `a: 2; b: $ a 3 + $;` resolves `a` to `2.0` and `b` to
`5.0`. -/
theorem decls_evaluated_in_order_env :
    (∀ (ast1 ast2 : List (String × AstValue)),
       eval_config (ast1 ++ ast2)
         = eval_config ast1 >>= fun cfg => eval_config_go ast2 cfg cfg) ∧
    eval_config [("a", AstValue.number 2),
        ("b", AstValue.expr [ExprTok.str "a", ExprTok.num 3,
          ExprTok.str "+"])]
      = Except.ok [("a", RVal.num (FP.finite 2)),
          ("b", RVal.num (FP.finite 5))] := by
  refine ⟨?_, ?_⟩
  · intro ast1 ast2
    simpa [eval_config] using eval_config_go_append ast1 ast2 []
  · norm_num +decide [eval_config, eval_config_go, eval_value, eval_expr,
      evalTok, List.foldlM, fadd, updateAssoc, lookupAssoc, List.find?,
      List.any]

/-- Claim C8: every entry of a dictionary literal is evaluated against
the same outer environment — the dictionary evaluation equals a pass
that evaluates each entry's value against that one `env` — so an entry
can reference earlier top-level constants (`a` below) but never a
sibling entry of the same literal (`x` below). -/
theorem dict_entries_same_outer_env :
    (∀ (env : Env) (entries : List (String × AstValue)),
       eval_value env (AstValue.dict entries)
         = evalEntriesSameEnv env entries >>= fun rl =>
             Except.ok (RVal.dict
               (rl.foldl (fun a p => updateAssoc a p.1 p.2) []))) ∧
    eval_config [("a", AstValue.number 1),
        ("d", AstValue.dict [("x", AstValue.number 7),
          ("y", AstValue.expr [ExprTok.str "x", ExprTok.num 1,
            ExprTok.str "+"])])]
      = Except.error (Err.unknownConstant "x") ∧
    eval_config [("a", AstValue.number 1),
        ("d", AstValue.dict [("y", AstValue.expr [ExprTok.str "a",
          ExprTok.num 1, ExprTok.str "+"])])]
      = Except.ok [("a", RVal.num (FP.finite 1)),
          ("d", RVal.dict [("y", RVal.num (FP.finite 2))])] := by
  refine ⟨?_, ?_, ?_⟩
  · intro env entries
    rw [eval_value, eval_dict_entries_eq_sameEnv env entries []]
    cases evalEntriesSameEnv env entries <;> simp
  · norm_num +decide [eval_config, eval_config_go, eval_value,
      eval_dict_entries, eval_expr, evalTok, List.foldlM, lookupAssoc,
      List.find?, updateAssoc, List.any]
  · norm_num +decide [eval_config, eval_config_go, eval_value,
      eval_dict_entries, eval_expr, evalTok, List.foldlM, fadd,
      lookupAssoc, List.find?, updateAssoc, List.any]

/-- Claim C9: the XML emitter maps a resolved configuration to a tree
rooted at a `config` element where every number entry becomes a
`number` element with a `name` attribute and the float's decimal text as
content, every dictionary entry becomes a `dict` element with a `name`
attribute containing its recursively emitted children, and child order
equals the ordered mapping's insertion order: `build_xml` coincides with
the emitter transcribed from the specification. -/
theorem build_xml_refines_spec (data : Env) : build_xml data = emitSpec data := by
  rw [build_xml, emitSpec, add_children_eq_spec data]

/-- Claim C10: inside an expression the token `min` is always the
binary function, even when a constant named `min` is in the
environment: the step ignores the environment entirely, and
`min: 5; x: $ min $;` fails with the arity error instead of resolving
`x` to `5.0`. -/
theorem min_shadows_environment :
    (∀ (env1 env2 : Env) (stack : List FP),
       evalTok env1 stack (ExprTok.str "min")
         = evalTok env2 stack (ExprTok.str "min")) ∧
    (∀ (env : Env) (stack : List FP),
       evalTok env stack (ExprTok.str "min")
         = match stack with
           | b :: a :: rest => Except.ok (fmin a b :: rest)
           | _ => Except.error Err.arityMin) ∧
    eval_config [("min", AstValue.number 5),
        ("x", AstValue.expr [ExprTok.str "min"])]
      = Except.error Err.arityMin := by
  refine ⟨?_, ?_, ?_⟩
  · intro env1 env2 stack
    simp +decide [evalTok]
  · intro env stack
    match stack with
    | [] => simp +decide [evalTok]
    | [x] => simp +decide [evalTok]
    | b :: a :: rest => simp +decide [evalTok]
  · norm_num +decide [eval_config, eval_config_go, eval_value, eval_expr,
      evalTok, List.foldlM, updateAssoc, List.any]
